import Mathlib

/-!
Shallow embedding of the rack-local DHCP reconciliation and TFTP boot
backend (`provisioningserver/rpc/dhcp.py` and
`provisioningserver/rackdservices/tftp.py`).

Python dicts that the code only ever sorts by their `"name"` entry and
compares for whole-dict equality (failover peers, shared networks, DHCP
snippets) are embedded as `NamedEntry`: the `name` field plus an opaque
`rest` component standing for every other entry of the dict.  Python's
`sorted(..., key=...)` is a stable sort by the key; it is embedded as
`List.insertionSort` with the relation `key a ≤ key b`, which is also a
stable sort by the key, and stable sorts over the same total preorder
agree on every input.  A Python dict built by a comprehension
`{h["mac"]: h for h in hosts}` is embedded as an insertion-ordered
association list in which a repeated key overwrites the stored value in
place; dict equality (which ignores insertion order) is embedded as
`hostsEqDict`.
-/

/-- A Python dict carrying a `"name"` entry; `rest` stands for the
remaining entries, which the embedded code never inspects. -/
structure NamedEntry where
  name : String
  rest : Nat
deriving DecidableEq, Repr

/-- A host dict as handed to `configure`: `"mac"`, `"ip"`,
`"dhcp_snippets"`, and (as `rest`) the remaining entries. -/
structure Host where
  mac : String
  ip : String
  dhcp_snippets : List NamedEntry
  rest : Nat
deriving DecidableEq, Repr

/-- `keyLe key a b` is the comparison `key a ≤ key b` that Python's
`sorted(..., key=key)` sorts by. -/
def keyLe {α : Type _} {β : Type _} [LinearOrder β] (key : α → β) (a b : α) : Prop :=
  key a ≤ key b

instance {α : Type _} {β : Type _} [LinearOrder β] (key : α → β) :
    DecidableRel (keyLe key) := fun a b => by
  unfold keyLe; infer_instance

instance {α : Type _} {β : Type _} [LinearOrder β] (key : α → β) :
    IsTotal α (keyLe key) := ⟨fun a b => le_total (key a) (key b)⟩

instance {α : Type _} {β : Type _} [LinearOrder β] (key : α → β) :
    IsTrans α (keyLe key) := ⟨fun _ _ _ h h2 => le_trans h h2⟩

/-- Python's `sorted(l, key=key)`: a stable sort by `key`. -/
def pysorted {α : Type _} {β : Type _} [LinearOrder β] (key : α → β)
    (l : List α) : List α :=
  List.insertionSort (keyLe key) l

/-- One step of the Python dict comprehension `{h["mac"]: h for h in hosts}`:
a repeated MAC overwrites the stored host in place, a new MAC is appended. -/
def dictInsert : List Host → Host → List Host
  | [], h => [h]
  | x :: xs, h => if x.mac = h.mac then h :: xs else x :: dictInsert xs h

/-- The Python dict comprehension `{h["mac"]: h for h in hosts}` as an
insertion-ordered association list. -/
def dictByMac (hs : List Host) : List Host :=
  hs.foldl dictInsert []

/-- Python `mac in hosts` / `hosts[mac]`: look a host up by MAC. -/
def hostsLookup (l : List Host) (m : String) : Option Host :=
  l.find? fun h => decide (h.mac = m)

/-- `DHCPState`: the canonical snapshot held in `_current_server_state`
(the namedtuple `DHCPStateBase` subclass of `dhcp.py`). -/
structure DHCPState where
  omapi_key : String
  failover_peers : List NamedEntry
  shared_networks : List NamedEntry
  hosts : List Host
  interfaces : List String
  global_dhcp_snippets : List NamedEntry
deriving DecidableEq, Repr

/-- `DHCPState.__new__`: sort failover peers, shared networks and global
snippets by name, key hosts by MAC, and sort the interface names. -/
def mkDHCPState (omapi_key : String)
    (failover_peers shared_networks : List NamedEntry)
    (hosts : List Host) (interfaces : List NamedEntry)
    (global_dhcp_snippets : List NamedEntry) : DHCPState :=
  { omapi_key := omapi_key
    failover_peers := pysorted (·.name) failover_peers
    shared_networks := pysorted (·.name) shared_networks
    hosts := dictByMac hosts
    interfaces := pysorted id (interfaces.map (·.name))
    global_dhcp_snippets := pysorted (·.name) global_dhcp_snippets }

/-- Python `==` on the `hosts` dicts: equality of key sets and of the
value stored at each key, ignoring insertion order. -/
def hostsEqDict (a b : List Host) : Bool :=
  (a.all fun h => hostsLookup b h.mac = some h) &&
  (b.all fun h => hostsLookup a h.mac = some h)

/-- Python `==` on two `DHCPState` namedtuples: fieldwise equality, with
the `hosts` dicts compared order-independently. -/
def stateEq (s t : DHCPState) : Bool :=
  decide (s.omapi_key = t.omapi_key) &&
  decide (s.failover_peers = t.failover_peers) &&
  decide (s.shared_networks = t.shared_networks) &&
  hostsEqDict s.hosts t.hosts &&
  decide (s.interfaces = t.interfaces) &&
  decide (s.global_dhcp_snippets = t.global_dhcp_snippets)

/-- `gather_hosts_dhcp_snippets` inside `DHCPState.requires_restart`:
concatenate every host's snippet list in host order, then sort by name. -/
def gather_hosts_dhcp_snippets (hosts : List Host) : List NamedEntry :=
  pysorted (·.name) (hosts.foldl (fun acc h => acc ++ h.dhcp_snippets) [])

/-- `DHCPState.requires_restart(other_state)`; `self` is the new state. -/
def requiresRestart (self other : DHCPState) : Bool :=
  decide (self.omapi_key ≠ other.omapi_key) ||
  decide (self.failover_peers ≠ other.failover_peers) ||
  decide (self.shared_networks ≠ other.shared_networks) ||
  decide (self.interfaces ≠ other.interfaces) ||
  decide (self.global_dhcp_snippets ≠ other.global_dhcp_snippets) ||
  decide
    (gather_hosts_dhcp_snippets self.hosts ≠
      gather_hosts_dhcp_snippets other.hosts)

/-- `DHCPState.host_diff(other_state)`: hosts to remove, to add, and to
modify, in the loop order of the source. -/
def hostDiff (self other : DHCPState) :
    List Host × List Host × List Host :=
  let add := self.hosts.filter fun h => (hostsLookup other.hosts h.mac).isNone
  let modify := self.hosts.filter fun h =>
    match hostsLookup other.hosts h.mac with
    | some oh => decide (h.ip ≠ oh.ip)
    | none => false
  let remove := other.hosts.filter fun h =>
    (hostsLookup self.hosts h.mac).isNone
  (remove, add, modify)

/-- One observable action of `configure` against the OS service monitor,
the filesystem, or the OMAPI host-map client (`Omshell`). -/
inductive DAction where
  | deleteConfig
  | writeConfig
  | svcOff
  | svcOn
  | ensureService
  | getServiceState
  | restartService
  | omapiRemove (mac : String)
  | omapiCreate (mac ip : String)
deriving DecidableEq, Repr

/-- The action trace of `_update_hosts(server, remove, add, modify)`:
its three loops over the OMAPI shell, in source order. -/
def updateHostsOps (remove add modify : List Host) : List DAction :=
  (remove.map fun h => DAction.omapiRemove h.mac) ++
  (add.map fun h => DAction.omapiCreate h.mac h.ip) ++
  (modify.foldr
    (fun h acc => DAction.omapiRemove h.mac :: DAction.omapiCreate h.mac h.ip :: acc)
    [])

/-- The environment a single `configure` call runs against: what the
filesystem, the service monitor and the OMAPI client do when invoked.
`updateFailAfter = some k` means `_update_hosts` raises after `k` of its
OMAPI operations have been issued; `none` means it succeeds. -/
structure Env where
  configExists : Bool
  writeOk : Bool
  ensureOk : Bool
  restartOk : Bool
  serviceActive : Bool
  updateFailAfter : Option Nat
deriving Repr

/-- Result of one `configure` call: the trace of actions issued, the
value of `_current_server_state[server.dhcp_service]` afterwards, and
whether an exception propagated to the caller. -/
structure CResult where
  trace : List DAction
  state : Option DHCPState
  error : Bool
deriving Repr

/-- `configure(server, failover_peers, shared_networks, hosts, interfaces,
global_dhcp_snippets)` from `dhcp.py`, with the remembered state for this
server passed in as `current` and returned in the result.  Failures of
the service monitor, of the config write, and of `_update_hosts` are
resolved by `env`; an `error` result models the `CannotConfigureDHCP`
(or other exception) propagating, which skips the assignment to
`_current_server_state`. -/
def configure (env : Env) (omapi_key : String)
    (failover_peers shared_networks : List NamedEntry)
    (hosts : List Host) (interfaces : List NamedEntry)
    (global_dhcp_snippets : List NamedEntry)
    (current : Option DHCPState) : CResult :=
  if shared_networks.length = 0 then
    -- Stop case: delete the config if present, turn the service off,
    -- ensure it is stopped, then clear the remembered state.
    let t := (if env.configExists then [DAction.deleteConfig] else []) ++
      [DAction.svcOff, DAction.ensureService]
    if env.ensureOk then ⟨t, none, false⟩ else ⟨t, current, true⟩
  else
    let new_state := mkDHCPState omapi_key failover_peers shared_networks
      hosts interfaces global_dhcp_snippets
    -- Always write the config first.
    if !env.writeOk then ⟨[DAction.writeConfig], current, true⟩ else
    let t1 := [DAction.writeConfig, DAction.svcOn]
    match current with
    | none =>
      -- First-time configuration: full restart.
      if env.restartOk then
        ⟨t1 ++ [DAction.restartService], some new_state, false⟩
      else ⟨t1 ++ [DAction.restartService], current, true⟩
    | some cs =>
      if requiresRestart new_state cs then
        if env.restartOk then
          ⟨t1 ++ [DAction.restartService], some new_state, false⟩
        else ⟨t1 ++ [DAction.restartService], current, true⟩
      else
        match hostDiff new_state cs with
        | (remove, add, modify) =>
          if remove.length + add.length + modify.length = 0 then
            -- Nothing changed: just make sure the service is running.
            if env.ensureOk then
              ⟨t1 ++ [DAction.ensureService], some new_state, false⟩
            else ⟨t1 ++ [DAction.ensureService], current, true⟩
          else
            -- Read the actual service state, then ensure it is running.
            let t2 := t1 ++ [DAction.getServiceState, DAction.ensureService]
            if !env.ensureOk then ⟨t2, current, true⟩
            else if env.serviceActive then
              let ops := updateHostsOps remove add modify
              match env.updateFailAfter with
              | none => ⟨t2 ++ ops, some new_state, false⟩
              | some k =>
                -- `_update_hosts` raised: fall back to a full restart.
                let t3 := t2 ++ ops.take k ++ [DAction.restartService]
                if env.restartOk then ⟨t3, some new_state, false⟩
                else ⟨t3, current, true⟩
            else
              -- Service was not running; starting it applied the full
              -- config, so no OMAPI update is attempted.
              ⟨t2, some new_state, false⟩

/-- A boot image record from the rack's image catalog.  Entries the
Python code reads with `.get(key, "")` are plain string fields here,
with `""` standing for an absent entry. -/
structure BootImage where
  osystem : String
  release : String
  architecture : String
  subarchitecture : String
  purpose : String
  label : String
  supported_subarches : String
  xinstall_path : String
deriving DecidableEq, Repr

/-- Module-level `get_boot_image` from `tftp.py`, with the result of
`list_boot_images()` passed in as `catalog`. -/
def get_boot_image (catalog : List BootImage)
    (osystem release architecture subarchitecture purpose : String)
    (skip_subarchitecture_check : Bool) : Option BootImage :=
  let purpose := if purpose = "enlist" then "commissioning" else purpose
  let boot_images := catalog.filter fun image =>
    decide (image.osystem = osystem) && decide (image.release = release) &&
    decide (image.architecture = architecture) &&
    decide (image.purpose = purpose)
  if boot_images.length = 0 then none
  else if skip_subarchitecture_check then boot_images.head?
  else
    match boot_images.find? (fun image =>
        decide (image.subarchitecture = subarchitecture)) with
    | some image => some image
    | none =>
      boot_images.find? fun image =>
        (image.supported_subarches.splitOn ",").contains subarchitecture

/-- A failure travelling down `get_reader`'s errback chain.  In the
`tftp` library that `tftp.py` builds on, `FileNotFound` is a subclass of
`BackendError`, which `isBackendError` reflects. -/
inductive TFTPFailure where
  | bootConfigNoResponse
  | fileNotFound (file_name : String)
  | backendError (msg : String)
  | other (msg : String)
deriving DecidableEq, Repr

/-- `failure.check(BackendError)`: `FileNotFound` is a `BackendError`
subclass in the `tftp` library. -/
def isBackendError : TFTPFailure → Bool
  | TFTPFailure.fileNotFound _ => true
  | TFTPFailure.backendError _ => true
  | _ => false

/-- `failure.getErrorMessage()`: the exception's short message, with no
stack detail. -/
def errorMessage : TFTPFailure → String
  | TFTPFailure.bootConfigNoResponse => "BootConfigNoResponse"
  | TFTPFailure.fileNotFound f => f
  | TFTPFailure.backendError m => m
  | TFTPFailure.other m => m

/-- `TFTPBackend.no_response_errback`: `failure.trap(BootConfigNoResponse)`
re-raises any other failure unchanged; a `BootConfigNoResponse` is
converted to `FileNotFound(file_name)`. -/
def no_response_errback (failure : TFTPFailure) (file_name : String) :
    TFTPFailure :=
  match failure with
  | TFTPFailure.bootConfigNoResponse => TFTPFailure.fileNotFound file_name
  | f => f

/-- `TFTPBackend.all_is_lost_errback`: pass a `BackendError` through;
log anything else and re-raise it as `BackendError(getErrorMessage())`.
The `Bool` records whether the failure was logged with full detail. -/
def all_is_lost_errback (failure : TFTPFailure) : TFTPFailure × Bool :=
  if isBackendError failure then (failure, false)
  else (TFTPFailure.backendError (errorMessage failure), true)

/-- The errback chain installed by `TFTPBackend.get_reader`:
`no_response_errback` first, then `all_is_lost_errback`. -/
def get_reader_errbacks (failure : TFTPFailure) (file_name : String) :
    TFTPFailure × Bool :=
  all_is_lost_errback (no_response_errback failure file_name)

/-- The side effect of `TFTPBackend._handle_image_not_found`: either a
`MarkNodeFailed` RPC call or a local `maaslog.error`. -/
inductive NotFoundEffect where
  | markNodeFailed (system_id description : String)
  | logLocal (msg : String)
deriving DecidableEq, Repr

/-- `TFTPBackend._handle_image_not_found`. -/
def handle_image_not_found (osystem arch subarch release : String)
    (system_id : Option String) (remote_ip : String)
    (is_kernel_image : Bool) : NotFoundEffect :=
  let description := "Missing " ++
    (if is_kernel_image then "kernel" else "boot") ++ " image " ++
    osystem ++ "/" ++ arch ++ "/" ++ subarch ++ "/" ++ release ++ "."
  match system_id with
  | some sid => NotFoundEffect.markNodeFailed sid description
  | none =>
    NotFoundEffect.logLocal
      ("Enlistment failed to boot " ++ remote_ip ++
        "; missing required boot image " ++ osystem ++ "/" ++ arch ++
        "/" ++ subarch ++ "/" ++ release ++ ".")

/-- The params dict as `TFTPBackend.get_boot_image` reads and writes it.
Keys the method may leave absent are `Option`-valued. -/
structure BootParams where
  purpose : String
  hostname : String
  osystem : String
  release : String
  kernel_osystem : String
  kernel_release : String
  arch : String
  subarch : String
  system_id : Option String
  label : Option String
  kernel_label : Option String
  xinstall_path : Option String
deriving DecidableEq, Repr

/-- `TFTPBackend.get_boot_image(params, client, remote_ip)`: rewrites the
params (labels, install path) and returns the side effects raised for
missing images.  The catalog stands for `list_boot_images()`. -/
def backend_get_boot_image (catalog : List BootImage)
    (params : BootParams) (remote_ip : String) :
    BootParams × List NotFoundEffect :=
  -- PXE booting a device: log, then set the purpose back to "local".
  let params :=
    if params.purpose = "local-device" then { params with purpose := "local" }
    else params
  -- `params.pop("system_id", None)`
  let system_id := params.system_id
  let params := { params with system_id := none }
  if params.purpose = "local" then
    ({ params with
        label := some "local"
        kernel_label := some "local"
        xinstall_path := some "" }, [])
  else
    let kernel_image := get_boot_image catalog params.kernel_osystem
      params.kernel_release params.arch params.subarch params.purpose false
    let step1 : BootParams × List NotFoundEffect :=
      match kernel_image with
      | none =>
        ({ params with kernel_label := some "no-such-image" },
          [handle_image_not_found params.kernel_osystem params.arch
            params.subarch params.kernel_release system_id remote_ip true])
      | some image => ({ params with kernel_label := some image.label }, [])
    let params := step1.1
    let boot_image := get_boot_image catalog params.osystem params.release
      params.arch params.subarch params.purpose
      (decide (params.osystem ≠ params.kernel_osystem))
    match boot_image with
    | none =>
      ({ params with label := some "no-such-image" },
        step1.2 ++
          [handle_image_not_found params.osystem params.arch params.subarch
            params.release system_id remote_ip false])
    | some image =>
      ({ params with
          label := some image.label
          xinstall_path := some image.xinstall_path }, step1.2)

/-- One UDP listener owned by `TFTPService`: its name is the address it
is bound to; `id` distinguishes listener instances, so a reconciliation
that keeps a listener keeps its `id`. -/
structure Listener where
  name : String
  id : Nat
deriving DecidableEq, Repr

/-- `TFTPService.updateServers`: returns the new set of servers and the
listeners that were stopped (`disownServiceParent`).  `desired` stands
for `get_all_interface_addresses()` (taken as a set, hence `dedup`),
`linkLocal` for `IPAddress(address).is_link_local()`, and `fresh` for
the ids handed to newly created `UDPServer`s. -/
def updateServers (servers : List Listener) (desired : List String)
    (linkLocal : String → Bool) (fresh : Nat) :
    List Listener × List Listener :=
  let addrs_established := servers.map (·.name)
  let additions := (desired.dedup).filter fun a =>
    !addrs_established.contains a && !linkLocal a
  let added := additions.enum.map fun p => Listener.mk p.2 (fresh + p.1)
  let stopped := servers.filter fun s => !desired.contains s.name
  let kept := servers.filter fun s => desired.contains s.name
  (kept ++ added, stopped)

/-- C4: a `BootConfigNoResponse` failure is always converted into the
protocol's file-not-found signal carrying the requested file name; a
failure already of the backend's structured error type (`BackendError`,
including its `FileNotFound` subclass) is passed through unchanged and
not re-logged; every other failure is logged locally and re-raised as a
generic backend failure carrying only its short message. -/
theorem c4_failure_classification (file_name : String) :
    get_reader_errbacks TFTPFailure.bootConfigNoResponse file_name =
      (TFTPFailure.fileNotFound file_name, false) ∧
    (∀ m, get_reader_errbacks (TFTPFailure.backendError m) file_name =
      (TFTPFailure.backendError m, false)) ∧
    (∀ g, get_reader_errbacks (TFTPFailure.fileNotFound g) file_name =
      (TFTPFailure.fileNotFound g, false)) ∧
    (∀ m, get_reader_errbacks (TFTPFailure.other m) file_name =
      (TFTPFailure.backendError m, true)) := by
  refine ⟨rfl, fun m => rfl, fun g => rfl, fun m => rfl⟩

/-- C5: with zero shared networks in the desired state, and the stop
command succeeding, `configure` deletes the config file exactly when it
is present, commands the service administratively off and stopped, and
clears the remembered state to absent — regardless of the prior
remembered state. -/
theorem c5_stop_case (env : Env) (k : String)
    (fp : List NamedEntry) (hosts : List Host)
    (ifaces gds : List NamedEntry) (current : Option DHCPState)
    (he : env.ensureOk = true) :
    (configure env k fp [] hosts ifaces gds current).state = none ∧
    (configure env k fp [] hosts ifaces gds current).error = false ∧
    (DAction.deleteConfig ∈ (configure env k fp [] hosts ifaces gds current).trace
      ↔ env.configExists = true) ∧
    DAction.svcOff ∈ (configure env k fp [] hosts ifaces gds current).trace ∧
    DAction.ensureService ∈ (configure env k fp [] hosts ifaces gds current).trace := by
  cases hc : env.configExists <;>
    simp [configure, he, hc]

/-- C5 witness: a concrete stop-case call clears the remembered state. -/
theorem c5_stop_case_witness :
    (configure ⟨true, true, true, true, true, none⟩ "k" [] [] [] [] []
      (some (mkDHCPState "k" [] [NamedEntry.mk "net" 0] [] [] []))).state
      = none :=
  (c5_stop_case ⟨true, true, true, true, true, none⟩ "k" [] [] [] []
    (some (mkDHCPState "k" [] [NamedEntry.mk "net" 0] [] [] [])) rfl).1

/-- C2: on the incremental path (non-absent current state, no structural
change, non-empty host diff, service active beforehand), when
`_update_hosts` raises after `kfail` OMAPI operations, `configure` falls
back to a full restart, and if the restart succeeds the remembered state
becomes the full desired canonical state. -/
theorem c2_update_fallback (env : Env) (k : String)
    (fp sn : List NamedEntry) (hosts : List Host)
    (ifaces gds : List NamedEntry) (cs : DHCPState)
    (rm ad md : List Host) (kfail : Nat)
    (hsn : sn ≠ []) (hw : env.writeOk = true) (he : env.ensureOk = true)
    (hact : env.serviceActive = true)
    (hup : env.updateFailAfter = some kfail)
    (hnr : requiresRestart (mkDHCPState k fp sn hosts ifaces gds) cs = false)
    (hd : hostDiff (mkDHCPState k fp sn hosts ifaces gds) cs = (rm, ad, md))
    (hnz : rm.length + ad.length + md.length ≠ 0) :
    (configure env k fp sn hosts ifaces gds (some cs)).trace =
      [DAction.writeConfig, DAction.svcOn, DAction.getServiceState,
        DAction.ensureService] ++
      (updateHostsOps rm ad md).take kfail ++ [DAction.restartService] ∧
    (env.restartOk = true →
      (configure env k fp sn hosts ifaces gds (some cs)).state =
        some (mkDHCPState k fp sn hosts ifaces gds) ∧
      (configure env k fp sn hosts ifaces gds (some cs)).error = false) := by
  have hlen : sn.length ≠ 0 := by
    simpa [List.length_eq_zero] using hsn
  cases hro : env.restartOk <;>
    simp [configure, hlen, hw, he, hact, hup, hnr, hd, hnz, hro]

/-- C2 witness: a one-host IP change whose OMAPI update fails after its
first operation triggers the restart fallback and still lands on the
full desired state. -/
theorem c2_update_fallback_witness :
    (configure ⟨true, true, true, true, true, some 1⟩ "k" []
      [NamedEntry.mk "net" 0] [Host.mk "m1" "i9" [] 0] [] []
      (some (mkDHCPState "k" [] [NamedEntry.mk "net" 0]
        [Host.mk "m1" "i1" [] 0] [] []))).trace =
      [DAction.writeConfig, DAction.svcOn, DAction.getServiceState,
        DAction.ensureService] ++
      (updateHostsOps [] [] [Host.mk "m1" "i9" [] 0]).take 1 ++
      [DAction.restartService] :=
  (c2_update_fallback ⟨true, true, true, true, true, some 1⟩ "k" []
    [NamedEntry.mk "net" 0] [Host.mk "m1" "i9" [] 0] [] []
    (mkDHCPState "k" [] [NamedEntry.mk "net" 0] [Host.mk "m1" "i1" [] 0] [] [])
    [] [] [Host.mk "m1" "i9" [] 0] 1
    (by decide) rfl rfl rfl rfl (by decide) (by decide) (by decide)).1

/-- C7: when the current and desired states are non-absent, not
structurally different, and differ exactly by one host modification (the
same MAC present in both with a different IP), `configure` rewrites the
config, calls `ensureService`, never issues a restart, and issues
exactly one OMAPI remove followed by one create for that MAC — but only
when the service state read beforehand was active; otherwise no host-map
operation is issued at all. -/
theorem c7_single_ip_change (env : Env) (k : String)
    (fp sn : List NamedEntry) (hosts : List Host)
    (ifaces gds : List NamedEntry) (cs : DHCPState) (h : Host)
    (hsn : sn ≠ []) (hw : env.writeOk = true) (he : env.ensureOk = true)
    (hup : env.updateFailAfter = none)
    (hnr : requiresRestart (mkDHCPState k fp sn hosts ifaces gds) cs = false)
    (hd : hostDiff (mkDHCPState k fp sn hosts ifaces gds) cs = ([], [], [h])) :
    (env.serviceActive = true →
      (configure env k fp sn hosts ifaces gds (some cs)).trace =
        [DAction.writeConfig, DAction.svcOn, DAction.getServiceState,
          DAction.ensureService, DAction.omapiRemove h.mac,
          DAction.omapiCreate h.mac h.ip]) ∧
    (env.serviceActive = false →
      (configure env k fp sn hosts ifaces gds (some cs)).trace =
        [DAction.writeConfig, DAction.svcOn, DAction.getServiceState,
          DAction.ensureService]) ∧
    DAction.restartService ∉ (configure env k fp sn hosts ifaces gds (some cs)).trace ∧
    (configure env k fp sn hosts ifaces gds (some cs)).state =
      some (mkDHCPState k fp sn hosts ifaces gds) ∧
    (configure env k fp sn hosts ifaces gds (some cs)).error = false := by
  have hlen : sn.length ≠ 0 := by
    simpa [List.length_eq_zero] using hsn
  cases hact : env.serviceActive <;>
    simp [configure, hlen, hw, he, hup, hnr, hd, hact, updateHostsOps]

/-- C7 witness: a concrete one-host IP change with the service active
issues exactly one remove+create pair and no restart. -/
theorem c7_single_ip_change_witness :
    (configure ⟨true, true, true, true, true, none⟩ "k" []
      [NamedEntry.mk "net" 0] [Host.mk "m1" "i9" [] 0] [] []
      (some (mkDHCPState "k" [] [NamedEntry.mk "net" 0]
        [Host.mk "m1" "i1" [] 0] [] []))).trace =
      [DAction.writeConfig, DAction.svcOn, DAction.getServiceState,
        DAction.ensureService, DAction.omapiRemove "m1",
        DAction.omapiCreate "m1" "i9"] :=
  (c7_single_ip_change ⟨true, true, true, true, true, none⟩ "k" []
    [NamedEntry.mk "net" 0] [Host.mk "m1" "i9" [] 0] [] []
    (mkDHCPState "k" [] [NamedEntry.mk "net" 0] [Host.mk "m1" "i1" [] 0] [] [])
    (Host.mk "m1" "i9" [] 0)
    (by decide) rfl rfl rfl (by decide) (by decide)).1 rfl

/-- An image matches the request when osystem, release, architecture and
(enlist-normalised) purpose agree exactly. -/
def matchesRequest (os rel arch purpose : String) (i : BootImage) : Prop :=
  i.osystem = os ∧ i.release = rel ∧ i.architecture = arch ∧
  i.purpose = (if purpose = "enlist" then "commissioning" else purpose)

/-- C3: boot-image resolution filters the catalog to exact
(osystem, release, architecture, purpose) matches and returns not-found
when none match; with the subarchitecture check not skipped it returns
an exact subarchitecture match when one exists, failing that an image
whose comma-separated `supported_subarches` contains the requested
subarchitecture, failing that not-found; and on the claim's two-image
example the exact match (the second image) is returned. -/
theorem c3_resolution (catalog : List BootImage)
    (os rel arch sub purpose : String) :
    ((∀ i ∈ catalog, ¬ matchesRequest os rel arch purpose i) →
      ∀ skip, get_boot_image catalog os rel arch sub purpose skip = none) ∧
    (∀ i, get_boot_image catalog os rel arch sub purpose false = some i →
      i ∈ catalog ∧ matchesRequest os rel arch purpose i ∧
        (i.subarchitecture = sub ∨ sub ∈ i.supported_subarches.splitOn ",")) ∧
    ((∃ i ∈ catalog, matchesRequest os rel arch purpose i ∧
        i.subarchitecture = sub) →
      ∃ i, get_boot_image catalog os rel arch sub purpose false = some i ∧
        i.subarchitecture = sub) ∧
    ((∃ i ∈ catalog, matchesRequest os rel arch purpose i ∧
        sub ∈ i.supported_subarches.splitOn ",") →
      ∃ i, get_boot_image catalog os rel arch sub purpose false = some i) ∧
    (get_boot_image catalog os rel arch sub purpose false = none →
      ∀ i ∈ catalog, matchesRequest os rel arch purpose i →
        i.subarchitecture ≠ sub ∧ sub ∉ i.supported_subarches.splitOn ",") ∧
    get_boot_image
      [BootImage.mk "u" "r" "a" "s1" "p" "L1" "s1,s2" "x",
        BootImage.mk "u" "r" "a" "s2" "p" "L2" "" ""]
      "u" "r" "a" "s2" "p" false =
      some (BootImage.mk "u" "r" "a" "s2" "p" "L2" "" "") := by
  have hpred : ∀ i : BootImage,
      (decide (i.osystem = os) && decide (i.release = rel) &&
        decide (i.architecture = arch) &&
        decide (i.purpose =
          (if purpose = "enlist" then "commissioning" else purpose))) = true ↔
      matchesRequest os rel arch purpose i := by
    intro i
    simp [matchesRequest, and_assoc]
  have part1 : (∀ i ∈ catalog, ¬ matchesRequest os rel arch purpose i) →
      ∀ skip, get_boot_image catalog os rel arch sub purpose skip = none := by
    intro hnone skip
    have h0 : catalog.filter (fun i =>
        decide (i.osystem = os) && decide (i.release = rel) &&
        decide (i.architecture = arch) &&
        decide (i.purpose =
          (if purpose = "enlist" then "commissioning" else purpose))) = [] := by
      refine List.filter_eq_nil_iff.mpr fun a ha hp => ?_
      exact hnone a ha ((hpred a).mp hp)
    simp [get_boot_image, h0]
  have part2 : ∀ i, get_boot_image catalog os rel arch sub purpose false = some i →
      i ∈ catalog ∧ matchesRequest os rel arch purpose i ∧
        (i.subarchitecture = sub ∨ sub ∈ i.supported_subarches.splitOn ",") := by
    intro i hi
    simp only [get_boot_image] at hi
    set bi := catalog.filter (fun i =>
        decide (i.osystem = os) && decide (i.release = rel) &&
        decide (i.architecture = arch) &&
        decide (i.purpose =
          (if purpose = "enlist" then "commissioning" else purpose))) with hbi
    by_cases h0 : bi.length = 0
    · rw [if_pos h0] at hi
      cases hi
    · rw [if_neg h0] at hi
      simp only [Bool.false_eq_true, if_false] at hi
      cases hfind : bi.find? (fun image => decide (image.subarchitecture = sub)) with
      | some j =>
        simp only [hfind] at hi
        cases hi
        have hmem := List.mem_of_find?_eq_some hfind
        have hq := List.find?_some hfind
        have hm := List.mem_filter.mp hmem
        exact ⟨hm.1, (hpred _).mp hm.2, Or.inl (by simpa using hq)⟩
      | none =>
        simp only [hfind] at hi
        have hmem := List.mem_of_find?_eq_some hi
        have hq := List.find?_some hi
        have hm := List.mem_filter.mp hmem
        exact ⟨hm.1, (hpred _).mp hm.2, Or.inr (by simpa using hq)⟩
  have part3 : (∃ i ∈ catalog, matchesRequest os rel arch purpose i ∧
      i.subarchitecture = sub) →
      ∃ i, get_boot_image catalog os rel arch sub purpose false = some i ∧
        i.subarchitecture = sub := by
    rintro ⟨i, hic, him, hisub⟩
    simp only [get_boot_image]
    set bi := catalog.filter (fun i =>
        decide (i.osystem = os) && decide (i.release = rel) &&
        decide (i.architecture = arch) &&
        decide (i.purpose =
          (if purpose = "enlist" then "commissioning" else purpose))) with hbi
    have hmem : i ∈ bi := List.mem_filter.mpr ⟨hic, (hpred i).mpr him⟩
    have h0 : ¬ bi.length = 0 := by
      rw [List.length_eq_zero]
      exact List.ne_nil_of_mem hmem
    have hiss : (bi.find? (fun image =>
        decide (image.subarchitecture = sub))).isSome := by
      rw [List.find?_isSome]
      exact ⟨i, hmem, by simpa using hisub⟩
    obtain ⟨j, hfind⟩ := Option.isSome_iff_exists.mp hiss
    refine ⟨j, ?_, by simpa using List.find?_some hfind⟩
    rw [if_neg h0]
    simp only [Bool.false_eq_true, if_false, hfind]
  have part4 : (∃ i ∈ catalog, matchesRequest os rel arch purpose i ∧
      sub ∈ i.supported_subarches.splitOn ",") →
      ∃ i, get_boot_image catalog os rel arch sub purpose false = some i := by
    rintro ⟨i, hic, him, hisub⟩
    simp only [get_boot_image]
    set bi := catalog.filter (fun i =>
        decide (i.osystem = os) && decide (i.release = rel) &&
        decide (i.architecture = arch) &&
        decide (i.purpose =
          (if purpose = "enlist" then "commissioning" else purpose))) with hbi
    have hmem : i ∈ bi := List.mem_filter.mpr ⟨hic, (hpred i).mpr him⟩
    have h0 : ¬ bi.length = 0 := by
      rw [List.length_eq_zero]
      exact List.ne_nil_of_mem hmem
    cases hfind : bi.find? (fun image => decide (image.subarchitecture = sub)) with
    | some j =>
      refine ⟨j, ?_⟩
      rw [if_neg h0]
      simp only [Bool.false_eq_true, if_false, hfind]
    | none =>
      have hiss : (bi.find? (fun image =>
          (image.supported_subarches.splitOn ",").contains sub)).isSome := by
        rw [List.find?_isSome]
        exact ⟨i, hmem, by simpa using hisub⟩
      obtain ⟨j, hfind2⟩ := Option.isSome_iff_exists.mp hiss
      refine ⟨j, ?_⟩
      rw [if_neg h0]
      simp only [Bool.false_eq_true, if_false, hfind, hfind2]
  refine ⟨part1, part2, part3, part4, ?_, by decide⟩
  intro hres i hic him
  constructor
  · intro hsub
    obtain ⟨j, hj, _⟩ := part3 ⟨i, hic, him, hsub⟩
    rw [hres] at hj
    cases hj
  · intro hsup
    obtain ⟨j, hj⟩ := part4 ⟨i, hic, him, hsup⟩
    rw [hres] at hj
    cases hj

/-- C3 witness: on a one-image catalog the exact-subarchitecture branch
fires. -/
theorem c3_resolution_witness :
    ∃ i, get_boot_image [BootImage.mk "u" "r" "a" "s2" "p" "L2" "" ""]
      "u" "r" "a" "s2" "p" false = some i ∧ i.subarchitecture = "s2" :=
  (c3_resolution [BootImage.mk "u" "r" "a" "s2" "p" "L2" "" ""]
    "u" "r" "a" "s2" "p").2.2.1
    ⟨BootImage.mk "u" "r" "a" "s2" "p" "L2" "" "", by decide,
      by simp [matchesRequest], by decide⟩

/-- C6: when a resolution pass finds no image, a known machine identity
leads to a `MarkNodeFailed` effect whose description names the missing
osystem/arch/subarch/release, an unknown machine leads to a local log
entry instead, and in both cases the returned params carry the sentinel
label `no-such-image` for that pass rather than the request aborting. -/
theorem c6_image_not_found (catalog : List BootImage)
    (p : BootParams) (rip : String)
    (hpd : p.purpose ≠ "local-device") (hpl : p.purpose ≠ "local") :
    (get_boot_image catalog p.kernel_osystem p.kernel_release p.arch
        p.subarch p.purpose false = none →
      (backend_get_boot_image catalog p rip).1.kernel_label =
        some "no-such-image" ∧
      (∀ sid, p.system_id = some sid →
        NotFoundEffect.markNodeFailed sid
          ("Missing kernel image " ++ p.kernel_osystem ++ "/" ++ p.arch ++
            "/" ++ p.subarch ++ "/" ++ p.kernel_release ++ ".") ∈
          (backend_get_boot_image catalog p rip).2) ∧
      (p.system_id = none → ∃ m,
        NotFoundEffect.logLocal m ∈ (backend_get_boot_image catalog p rip).2)) ∧
    (get_boot_image catalog p.osystem p.release p.arch p.subarch p.purpose
        (decide (p.osystem ≠ p.kernel_osystem)) = none →
      (backend_get_boot_image catalog p rip).1.label = some "no-such-image" ∧
      (∀ sid, p.system_id = some sid →
        NotFoundEffect.markNodeFailed sid
          ("Missing boot image " ++ p.osystem ++ "/" ++ p.arch ++ "/" ++
            p.subarch ++ "/" ++ p.release ++ ".") ∈
          (backend_get_boot_image catalog p rip).2) ∧
      (p.system_id = none → ∃ m,
        NotFoundEffect.logLocal m ∈ (backend_get_boot_image catalog p rip).2)) := by
  rw [(by simp : decide (p.osystem ≠ p.kernel_osystem) =
    !decide (p.osystem = p.kernel_osystem))]
  cases hk : get_boot_image catalog p.kernel_osystem p.kernel_release p.arch
      p.subarch p.purpose false with
  | none =>
    cases hb : get_boot_image catalog p.osystem p.release p.arch p.subarch
        p.purpose (!decide (p.osystem = p.kernel_osystem)) with
    | none =>
      cases hsid : p.system_id with
      | none =>
        refine ⟨fun _ => ⟨?_, ?_, ?_⟩, fun _ => ⟨?_, ?_, ?_⟩⟩ <;>
          simp [backend_get_boot_image, hpd, hpl, hk, hb, hsid,
            handle_image_not_found]
      | some sid =>
        refine ⟨fun _ => ⟨?_, ?_, ?_⟩, fun _ => ⟨?_, ?_, ?_⟩⟩ <;>
          simp [backend_get_boot_image, hpd, hpl, hk, hb, hsid,
            handle_image_not_found]
    | some img =>
      cases hsid : p.system_id with
      | none =>
        refine ⟨fun _ => ⟨?_, ?_, ?_⟩, fun hc => absurd hc (by simp)⟩ <;>
          simp [backend_get_boot_image, hpd, hpl, hk, hb, hsid,
            handle_image_not_found]
      | some sid =>
        refine ⟨fun _ => ⟨?_, ?_, ?_⟩, fun hc => absurd hc (by simp)⟩ <;>
          simp [backend_get_boot_image, hpd, hpl, hk, hb, hsid,
            handle_image_not_found]
  | some kimg =>
    cases hb : get_boot_image catalog p.osystem p.release p.arch p.subarch
        p.purpose (!decide (p.osystem = p.kernel_osystem)) with
    | none =>
      cases hsid : p.system_id with
      | none =>
        refine ⟨fun hc => absurd hc (by simp), fun _ => ⟨?_, ?_, ?_⟩⟩ <;>
          simp [backend_get_boot_image, hpd, hpl, hk, hb, hsid,
            handle_image_not_found]
      | some sid =>
        refine ⟨fun hc => absurd hc (by simp), fun _ => ⟨?_, ?_, ?_⟩⟩ <;>
          simp [backend_get_boot_image, hpd, hpl, hk, hb, hsid,
            handle_image_not_found]
    | some img =>
      exact ⟨fun hc => absurd hc (by simp), fun hc => absurd hc (by simp)⟩

/-- C6 witness: an empty catalog with a known machine identity yields the
kernel sentinel label. -/
theorem c6_image_not_found_witness :
    (backend_get_boot_image []
      (BootParams.mk "commissioning" "h" "ubuntu" "focal" "ubuntu" "focal"
        "amd64" "generic" (some "sid") none none none) "10.0.0.9").1.kernel_label
      = some "no-such-image" :=
  ((c6_image_not_found []
    (BootParams.mk "commissioning" "h" "ubuntu" "focal" "ubuntu" "focal"
      "amd64" "generic" (some "sid") none none none) "10.0.0.9"
    (by decide) (by decide)).1 rfl).1

/-- The names of the listeners newly created by `updateServers` are
exactly the addresses they were created for. -/
theorem added_map_name (additions : List String) (fresh : Nat) :
    (additions.enum.map fun p => Listener.mk p.2 (fresh + p.1)).map
      Listener.name = additions := by
  rw [List.map_map]
  have h : (Listener.name ∘ fun p : Nat × String =>
      Listener.mk p.2 (fresh + p.1)) = Prod.snd := rfl
  rw [h, List.enum_map_snd]

/-- C9: one reconciliation pass keeps the no-two-listeners-per-address
invariant, starts a listener for every non-link-local desired address,
stops and removes every listener whose address is no longer desired, and
leaves listeners for still-desired addresses untouched; reconciling
interfaces {a, b} and then {b, c} keeps exactly the original b listener,
adds a fresh c listener, and stops the a listener. -/
theorem c9_listener_reconciliation :
    (∀ (servers : List Listener) (desired : List String)
        (linkLocal : String → Bool) (fresh : Nat),
      ((servers.map Listener.name).Nodup →
        (((updateServers servers desired linkLocal fresh).1.map
          Listener.name).Nodup)) ∧
      (∀ a ∈ desired, linkLocal a = false →
        ∃ s ∈ (updateServers servers desired linkLocal fresh).1, s.name = a) ∧
      (∀ s ∈ servers, s.name ∉ desired →
        s ∈ (updateServers servers desired linkLocal fresh).2 ∧
        s ∉ (updateServers servers desired linkLocal fresh).1) ∧
      (∀ s ∈ servers, s.name ∈ desired →
        s ∈ (updateServers servers desired linkLocal fresh).1)) ∧
    (updateServers [] ["a", "b"] (fun _ => false) 0 =
      ([Listener.mk "a" 0, Listener.mk "b" 1], []) ∧
      updateServers [Listener.mk "a" 0, Listener.mk "b" 1] ["b", "c"]
        (fun _ => false) 2 =
      ([Listener.mk "b" 1, Listener.mk "c" 2], [Listener.mk "a" 0])) := by
  constructor
  · intro servers desired linkLocal fresh
    simp only [updateServers]
    refine ⟨?_, ?_, ?_, ?_⟩
    · intro hnd
      rw [List.map_append]
      refine List.Nodup.append ?_ ?_ ?_
      · exact hnd.sublist ((List.filter_sublist servers).map Listener.name)
      · rw [added_map_name]
        exact (List.nodup_dedup desired).filter _
      · intro a ha hb
        rw [added_map_name] at hb
        have hq := (List.mem_filter.mp hb).2
        have hnc : ¬ a ∈ servers.map Listener.name := by
          simp only [Bool.and_eq_true, Bool.not_eq_true'] at hq
          simpa using hq.1
        obtain ⟨s, hs, hname⟩ := List.mem_map.mp ha
        exact hnc (hname ▸ List.mem_map_of_mem Listener.name
          (List.mem_of_mem_filter hs))
    · intro a had hll
      by_cases hest : a ∈ servers.map Listener.name
      · obtain ⟨s, hs, hname⟩ := List.mem_map.mp hest
        refine ⟨s, List.mem_append_left _ ?_, hname⟩
        refine List.mem_filter.mpr ⟨hs, ?_⟩
        rw [hname]
        simpa using had
      · have haa : a ∈ desired.dedup.filter fun a =>
            !(servers.map Listener.name).contains a && !linkLocal a := by
          refine List.mem_filter.mpr ⟨List.mem_dedup.mpr had, ?_⟩
          simp [hest, hll]
        have hmm : a ∈ ((desired.dedup.filter fun a =>
            !(servers.map Listener.name).contains a &&
              !linkLocal a).enum.map fun p =>
            Listener.mk p.2 (fresh + p.1)).map Listener.name := by
          rw [added_map_name]
          exact haa
        obtain ⟨s, hs, hname⟩ := List.mem_map.mp hmm
        exact ⟨s, List.mem_append_right _ hs, hname⟩
    · intro s hs hnot
      constructor
      · refine List.mem_filter.mpr ⟨hs, ?_⟩
        simpa using hnot
      · intro hmem
        rcases List.mem_append.mp hmem with hk | ha
        · have hc := (List.mem_filter.mp hk).2
          simp at hc
          exact hnot hc
        · have hn : s.name ∈ ((desired.dedup.filter fun a =>
              !(servers.map Listener.name).contains a &&
                !linkLocal a).enum.map fun p =>
              Listener.mk p.2 (fresh + p.1)).map Listener.name :=
            List.mem_map_of_mem Listener.name ha
          rw [added_map_name] at hn
          exact hnot (List.mem_dedup.mp (List.mem_of_mem_filter hn))
    · intro s hs hin
      refine List.mem_append_left _ (List.mem_filter.mpr ⟨hs, ?_⟩)
      simpa using hin
  · exact ⟨by decide, by decide⟩

/-- C9 witness: a desired non-link-local address gets a listener. -/
theorem c9_listener_reconciliation_witness :
    ∃ s ∈ (updateServers [] ["a"] (fun _ => false) 0).1, s.name = "a" :=
  (c9_listener_reconciliation.1 [] ["a"] (fun _ => false) 0).2.1 "a"
    (by decide) rfl

/-- The modify loop of `_update_hosts` is the flat map of the
remove-then-create pair over the modify list. -/
theorem modify_ops_eq_flatMap (modify : List Host) :
    modify.foldr (fun h acc =>
        DAction.omapiRemove h.mac :: DAction.omapiCreate h.mac h.ip :: acc)
        [] =
      modify.flatMap fun h =>
        [DAction.omapiRemove h.mac, DAction.omapiCreate h.mac h.ip] := by
  induction modify with
  | nil => rfl
  | cons h t ih => simp [ih]

/-- Length of the modify-pair segment. -/
theorem modify_ops_length (modify : List Host) :
    (modify.flatMap fun h =>
      [DAction.omapiRemove h.mac, DAction.omapiCreate h.mac h.ip]).length =
      2 * modify.length := by
  induction modify with
  | nil => rfl
  | cons h t ih => simp [ih]; omega

/-- Elements of the modify-pair segment: the remove of host `i` sits at
index `2 i` and its create immediately after it. -/
theorem modify_ops_getElem (modify : List Host) (i : Nat)
    (hi : i < modify.length) :
    (modify.flatMap fun h =>
      [DAction.omapiRemove h.mac, DAction.omapiCreate h.mac h.ip])[2 * i]? =
      (modify[i]?).map (fun h => DAction.omapiRemove h.mac) ∧
    (modify.flatMap fun h =>
      [DAction.omapiRemove h.mac,
        DAction.omapiCreate h.mac h.ip])[2 * i + 1]? =
      (modify[i]?).map fun h => DAction.omapiCreate h.mac h.ip := by
  induction modify generalizing i with
  | nil => cases hi
  | cons h t ih =>
    cases i with
    | zero => simp
    | succ j =>
      have hj : j < t.length := by simpa using Nat.lt_of_succ_lt_succ hi
      have h2 : 2 * (j + 1) = (2 * j) + 2 := by ring
      constructor
      · rw [h2]
        simpa using (ih j hj).1
      · rw [h2]
        simpa [Nat.add_assoc] using (ih j hj).2

/-- C10: `_update_hosts` issues every removal from the remove list
first, then every creation from the add list, and then processes each
modify host as a removal of its MAC immediately followed by a creation
of its MAC-to-IP mapping. -/
theorem c10_update_hosts_order (remove add modify : List Host) :
    (updateHostsOps remove add modify).length =
      remove.length + add.length + 2 * modify.length ∧
    (∀ i, i < remove.length →
      (updateHostsOps remove add modify)[i]? =
        (remove[i]?).map fun h => DAction.omapiRemove h.mac) ∧
    (∀ i, i < add.length →
      (updateHostsOps remove add modify)[remove.length + i]? =
        (add[i]?).map fun h => DAction.omapiCreate h.mac h.ip) ∧
    (∀ i, i < modify.length →
      (updateHostsOps remove add modify)[remove.length + add.length + 2 * i]? =
        (modify[i]?).map (fun h => DAction.omapiRemove h.mac) ∧
      (updateHostsOps remove add modify)[remove.length + add.length + 2 * i + 1]? =
        (modify[i]?).map fun h => DAction.omapiCreate h.mac h.ip) := by
  unfold updateHostsOps
  rw [modify_ops_eq_flatMap]
  refine ⟨?_, ?_, ?_, ?_⟩
  · simp only [List.length_append, List.length_map, modify_ops_length]
  · intro i hi
    rw [List.append_assoc, List.getElem?_append_left (by simpa using hi),
      List.getElem?_map]
  · intro i hi
    rw [List.append_assoc,
      List.getElem?_append_right (by simp),
      List.getElem?_append_left (by simpa using hi)]
    simp [List.getElem?_map]
  · intro i hi
    have hlen1 : (remove.map fun h => DAction.omapiRemove h.mac).length +
        ((add.map fun h => DAction.omapiCreate h.mac h.ip).length) =
        remove.length + add.length := by simp
    constructor
    · rw [List.append_assoc,
        List.getElem?_append_right (by simp; omega),
        List.getElem?_append_right (by simp; omega)]
      have he : remove.length + add.length + 2 * i -
          (remove.map fun h => DAction.omapiRemove h.mac).length -
          (add.map fun h => DAction.omapiCreate h.mac h.ip).length = 2 * i := by
        simp
        omega
      rw [he]
      exact (modify_ops_getElem modify i hi).1
    · rw [List.append_assoc,
        List.getElem?_append_right (by simp; omega),
        List.getElem?_append_right (by simp; omega)]
      have he : remove.length + add.length + 2 * i + 1 -
          (remove.map fun h => DAction.omapiRemove h.mac).length -
          (add.map fun h => DAction.omapiCreate h.mac h.ip).length =
          2 * i + 1 := by
        simp
        omega
      rw [he]
      exact (modify_ops_getElem modify i hi).2

/-- C10 witness: one removal, one addition and one modification are
issued in source order. -/
theorem c10_update_hosts_order_witness :
    (updateHostsOps [Host.mk "m1" "i1" [] 0] [Host.mk "m2" "i2" [] 0]
      [Host.mk "m3" "i3" [] 0])[0]? =
      ([Host.mk "m1" "i1" [] 0][0]?).map
        (fun h => DAction.omapiRemove h.mac) :=
  (c10_update_hosts_order [Host.mk "m1" "i1" [] 0] [Host.mk "m2" "i2" [] 0]
    [Host.mk "m3" "i3" [] 0]).2.1 0 (by decide)

/-- C1 counterexample: moving a snippet from host m1 to host m2 changes
a per-host snippet assignment while leaving the shared secret, failover
peers, shared networks, interfaces, global snippets, and every host MAC
and IP unchanged — yet `requires_restart` reports false, because it only
compares the name-sorted concatenation of all host snippets. -/
theorem c1_requires_restart_counterexample :
    let oldS := mkDHCPState "k" [] [NamedEntry.mk "net" 0]
      [Host.mk "m1" "i1" [NamedEntry.mk "s" 0] 0, Host.mk "m2" "i2" [] 0]
      [] []
    let newS := mkDHCPState "k" [] [NamedEntry.mk "net" 0]
      [Host.mk "m1" "i1" [] 0, Host.mk "m2" "i2" [NamedEntry.mk "s" 0] 0]
      [] []
    requiresRestart newS oldS = false ∧
    (hostsLookup newS.hosts "m1").map Host.dhcp_snippets ≠
      (hostsLookup oldS.hosts "m1").map Host.dhcp_snippets ∧
    newS.omapi_key = oldS.omapi_key ∧
    newS.failover_peers = oldS.failover_peers ∧
    newS.shared_networks = oldS.shared_networks ∧
    newS.interfaces = oldS.interfaces ∧
    newS.global_dhcp_snippets = oldS.global_dhcp_snippets ∧
    newS.hosts.map Host.mac = oldS.hosts.map Host.mac ∧
    newS.hosts.map Host.ip = oldS.hosts.map Host.ip := by
  decide

/-- Hosts lists whose snippet lists agree positionwise fold to the same
snippet concatenation, for any accumulator. -/
theorem foldl_gather_eq (hs₁ hs₂ : List Host)
    (h : List.Forall₂ (fun a b => a.dhcp_snippets = b.dhcp_snippets) hs₁ hs₂) :
    ∀ acc : List NamedEntry,
      hs₁.foldl (fun acc h => acc ++ h.dhcp_snippets) acc =
      hs₂.foldl (fun acc h => acc ++ h.dhcp_snippets) acc := by
  induction h with
  | nil => intro _; rfl
  | cons hab _ ih =>
    intro acc
    simp only [List.foldl_cons]
    rw [hab]
    exact ih _

/-- Hosts lists whose snippet lists agree positionwise gather the same
name-sorted snippet list. -/
theorem gather_eq_of_forall₂ (hs₁ hs₂ : List Host)
    (h : List.Forall₂ (fun a b => a.dhcp_snippets = b.dhcp_snippets) hs₁ hs₂) :
    gather_hosts_dhcp_snippets hs₁ = gather_hosts_dhcp_snippets hs₂ := by
  unfold gather_hosts_dhcp_snippets
  rw [foldl_gather_eq hs₁ hs₂ h]

/-- C1 (amended): `requires_restart(new, old)` is false exactly when the
two states agree on the OMAPI shared secret, the failover-peer list, the
shared-network list, the interface list, the global snippet list, and
the name-sorted concatenation of all per-host snippets gathered across
the fleet (so a snippet moving between hosts is not detected); in
particular two states whose hosts carry positionally identical snippet
lists — IPs and MACs free to differ — never require a restart when the
five structural fields agree. -/
theorem c1_requires_restart (n o : DHCPState) :
    (requiresRestart n o = false ↔
      (n.omapi_key = o.omapi_key ∧ n.failover_peers = o.failover_peers ∧
        n.shared_networks = o.shared_networks ∧
        n.interfaces = o.interfaces ∧
        n.global_dhcp_snippets = o.global_dhcp_snippets ∧
        gather_hosts_dhcp_snippets n.hosts =
          gather_hosts_dhcp_snippets o.hosts)) ∧
    (List.Forall₂ (fun a b => a.dhcp_snippets = b.dhcp_snippets)
        n.hosts o.hosts →
      n.omapi_key = o.omapi_key → n.failover_peers = o.failover_peers →
      n.shared_networks = o.shared_networks →
      n.interfaces = o.interfaces →
      n.global_dhcp_snippets = o.global_dhcp_snippets →
      requiresRestart n o = false) := by
  have hiff : requiresRestart n o = false ↔
      (n.omapi_key = o.omapi_key ∧ n.failover_peers = o.failover_peers ∧
        n.shared_networks = o.shared_networks ∧
        n.interfaces = o.interfaces ∧
        n.global_dhcp_snippets = o.global_dhcp_snippets ∧
        gather_hosts_dhcp_snippets n.hosts =
          gather_hosts_dhcp_snippets o.hosts) := by
    simp [requiresRestart, and_assoc]
  refine ⟨hiff, fun hf h1 h2 h3 h4 h5 => ?_⟩
  exact hiff.mpr ⟨h1, h2, h3, h4, h5, gather_eq_of_forall₂ _ _ hf⟩

/-- C1 witness: two states differing only in one host's IP (identical
positional snippet assignments) do not require a restart. -/
theorem c1_requires_restart_witness :
    requiresRestart
      (mkDHCPState "k" [] [NamedEntry.mk "net" 0]
        [Host.mk "m1" "i9" [NamedEntry.mk "s" 0] 0, Host.mk "m2" "i2" [] 0]
        [] [])
      (mkDHCPState "k" [] [NamedEntry.mk "net" 0]
        [Host.mk "m1" "i1" [NamedEntry.mk "s" 0] 0, Host.mk "m2" "i2" [] 0]
        [] []) = false :=
  (c1_requires_restart
    (mkDHCPState "k" [] [NamedEntry.mk "net" 0]
      [Host.mk "m1" "i9" [NamedEntry.mk "s" 0] 0, Host.mk "m2" "i2" [] 0]
      [] [])
    (mkDHCPState "k" [] [NamedEntry.mk "net" 0]
      [Host.mk "m1" "i1" [NamedEntry.mk "s" 0] 0, Host.mk "m2" "i2" [] 0]
      [] [])).2
    (List.Forall₂.cons rfl (List.Forall₂.cons rfl List.Forall₂.nil))
    rfl rfl rfl rfl rfl

/-- `pysorted` output is sorted by the key. -/
theorem pysorted_sorted {α : Type _} {β : Type _} [LinearOrder β]
    (key : α → β) (l : List α) :
    List.Sorted (keyLe key) (pysorted key l) :=
  List.sorted_insertionSort (keyLe key) l

/-- `pysorted` permutes its input. -/
theorem pysorted_perm {α : Type _} {β : Type _} [LinearOrder β]
    (key : α → β) (l : List α) : (pysorted key l).Perm l :=
  List.perm_insertionSort (keyLe key) l

/-- Two key-sorted permutations of each other are equal when the key is
injective on their elements. -/
theorem eq_of_perm_sorted_inj {α : Type _} {β : Type _} [LinearOrder β]
    (key : α → β) :
    ∀ (l₁ l₂ : List α), l₁.Perm l₂ → List.Sorted (keyLe key) l₁ →
      List.Sorted (keyLe key) l₂ →
      (∀ a ∈ l₁, ∀ b ∈ l₁, key a = key b → a = b) → l₁ = l₂ := by
  intro l₁
  induction l₁ with
  | nil =>
    intro l₂ hp _ _ _
    exact (List.Perm.eq_nil hp.symm).symm
  | cons a t ih =>
    intro l₂ hp hs₁ hs₂ hinj
    cases l₂ with
    | nil => cases List.Perm.eq_nil hp
    | cons b t₂ =>
      have hb_mem : b ∈ a :: t := hp.symm.subset (List.mem_cons_self b t₂)
      have ha_mem : a ∈ b :: t₂ := hp.subset (List.mem_cons_self a t)
      have hab : a = b := by
        rcases List.mem_cons.mp hb_mem with hba | hbt
        · exact hba.symm
        · rcases List.mem_cons.mp ha_mem with hab2 | hat
          · exact hab2
          · have h1 : key a ≤ key b := (List.sorted_cons.mp hs₁).1 b hbt
            have h2 : key b ≤ key a := (List.sorted_cons.mp hs₂).1 a hat
            exact hinj a (List.mem_cons_self a t) b hb_mem
              (le_antisymm h1 h2)
      subst hab
      have ht : t.Perm t₂ := hp.cons_inv
      have := ih t₂ ht (List.sorted_cons.mp hs₁).2 (List.sorted_cons.mp hs₂).2
        (fun x hx y hy hk =>
          hinj x (List.mem_cons_of_mem a hx) y (List.mem_cons_of_mem a hy) hk)
      rw [this]

/-- Key-sorting two permuted lists gives the same result when the key is
injective on the elements. -/
theorem pysorted_eq_of_perm {α : Type _} {β : Type _} [LinearOrder β]
    (key : α → β) (l₁ l₂ : List α) (hp : l₁.Perm l₂)
    (hinj : ∀ a ∈ l₁, ∀ b ∈ l₁, key a = key b → a = b) :
    pysorted key l₁ = pysorted key l₂ := by
  refine eq_of_perm_sorted_inj key _ _
    ((pysorted_perm key l₁).trans (hp.trans (pysorted_perm key l₂).symm))
    (pysorted_sorted key l₁) (pysorted_sorted key l₂) ?_
  intro a ha b hb hk
  exact hinj a ((pysorted_perm key l₁).subset ha)
    b ((pysorted_perm key l₁).subset hb) hk

/-- Inserting a host with a fresh MAC into the dict appends it. -/
theorem dictInsert_of_not_mem (l : List Host) (h : Host)
    (hnm : h.mac ∉ l.map Host.mac) : dictInsert l h = l ++ [h] := by
  induction l with
  | nil => rfl
  | cons x xs ih =>
    simp only [List.map_cons, List.mem_cons, not_or] at hnm
    unfold dictInsert
    rw [if_neg (fun hx => hnm.1 (hx.symm)), ih hnm.2]
    rfl

/-- On a host list with pairwise distinct MACs the dict comprehension is
the identity. -/
theorem foldl_dictInsert_of_nodup (hs : List Host) :
    ∀ acc : List Host, (((acc ++ hs).map Host.mac).Nodup) →
      hs.foldl dictInsert acc = acc ++ hs := by
  induction hs with
  | nil => intro acc _; simp
  | cons h t ih =>
    intro acc hnd
    have hnm : h.mac ∉ acc.map Host.mac := by
      rw [List.map_append] at hnd
      have hd := (List.nodup_append.mp hnd).2.2
      intro hmem
      exact hd hmem (by simp)
    rw [List.foldl_cons, dictInsert_of_not_mem acc h hnm]
    have heq : acc ++ h :: t = (acc ++ [h]) ++ t := by simp
    rw [heq] at hnd ⊢
    exact ih (acc ++ [h]) hnd

/-- `dictByMac` is the identity on host lists with distinct MACs. -/
theorem dictByMac_of_nodup (hs : List Host)
    (hnd : (hs.map Host.mac).Nodup) : dictByMac hs = hs := by
  unfold dictByMac
  exact foldl_dictInsert_of_nodup hs [] (by simpa using hnd)

/-- Looking up a member host by MAC finds it when MACs are distinct. -/
theorem hostsLookup_of_mem (l : List Host) (h : Host) (hm : h ∈ l)
    (hnd : (l.map Host.mac).Nodup) : hostsLookup l h.mac = some h := by
  induction l with
  | nil => cases hm
  | cons x xs ih =>
    simp only [List.map_cons, List.nodup_cons] at hnd
    by_cases hx : x.mac = h.mac
    · rw [hostsLookup, List.find?_cons_of_pos xs (by simpa using hx)]
      rcases List.mem_cons.mp hm with rfl | hxs
      · rfl
      · exact absurd (hx ▸ List.mem_map_of_mem Host.mac hxs) hnd.1
    · rw [hostsLookup, List.find?_cons_of_neg xs (by simpa using hx)]
      rcases List.mem_cons.mp hm with rfl | hxs
      · exact absurd rfl hx
      · exact ih hxs hnd.2

/-- Permuted host lists with distinct MACs are equal as Python dicts. -/
theorem hostsEqDict_of_perm (hs₁ hs₂ : List Host) (hp : hs₁.Perm hs₂)
    (hnd : (hs₁.map Host.mac).Nodup) : hostsEqDict hs₁ hs₂ = true := by
  have hnd₂ : (hs₂.map Host.mac).Nodup := (hp.map Host.mac).nodup_iff.mp hnd
  unfold hostsEqDict
  rw [Bool.and_eq_true, List.all_eq_true, List.all_eq_true]
  constructor
  · intro h hm
    simpa using hostsLookup_of_mem hs₂ h (hp.subset hm) hnd₂
  · intro h hm
    simpa using hostsLookup_of_mem hs₁ h (hp.symm.subset hm) hnd

/-- C8 counterexample: element-wise permutations of raw input do NOT
always yield equal canonical states.  Two failover peers sharing a name
keep their (stable-sorted) input order, so swapping them changes the
canonical state; two hosts sharing a MAC collapse to whichever came
last, so swapping them changes the stored host. -/
theorem c8_state_equality_counterexample :
    ([NamedEntry.mk "a" 0, NamedEntry.mk "a" 1] : List NamedEntry).Perm
      [NamedEntry.mk "a" 1, NamedEntry.mk "a" 0] ∧
    stateEq
      (mkDHCPState "k" [NamedEntry.mk "a" 0, NamedEntry.mk "a" 1]
        [NamedEntry.mk "net" 0] [] [] [])
      (mkDHCPState "k" [NamedEntry.mk "a" 1, NamedEntry.mk "a" 0]
        [NamedEntry.mk "net" 0] [] [] []) = false ∧
    ([Host.mk "m" "i1" [] 0, Host.mk "m" "i2" [] 0] : List Host).Perm
      [Host.mk "m" "i2" [] 0, Host.mk "m" "i1" [] 0] ∧
    stateEq
      (mkDHCPState "k" [] [NamedEntry.mk "net" 0]
        [Host.mk "m" "i1" [] 0, Host.mk "m" "i2" [] 0] [] [])
      (mkDHCPState "k" [] [NamedEntry.mk "net" 0]
        [Host.mk "m" "i2" [] 0, Host.mk "m" "i1" [] 0] [] []) = false := by
  have h1 : pysorted (·.name)
      [NamedEntry.mk "a" 0, NamedEntry.mk "a" 1] =
      [NamedEntry.mk "a" 0, NamedEntry.mk "a" 1] := by
    simp [pysorted, List.insertionSort, List.orderedInsert, keyLe]
  have h2 : pysorted (·.name)
      [NamedEntry.mk "a" 1, NamedEntry.mk "a" 0] =
      [NamedEntry.mk "a" 1, NamedEntry.mk "a" 0] := by
    simp [pysorted, List.insertionSort, List.orderedInsert, keyLe]
  refine ⟨by decide, ?_, by decide, by decide⟩
  unfold stateEq mkDHCPState
  rw [h1, h2]
  decide

/-- C8 (amended): constructing a `DHCPState` from element-wise permuted
raw inputs with the same omapi key yields canonically equal states
(Python `==`), provided the failover-peer, shared-network and
global-snippet names are pairwise distinct and the host MACs are
pairwise distinct; interface lists may be permuted freely. -/
theorem c8_state_equality (k : String)
    (fp₁ fp₂ sn₁ sn₂ gds₁ gds₂ : List NamedEntry)
    (hs₁ hs₂ : List Host) (if₁ if₂ : List NamedEntry)
    (hpfp : fp₁.Perm fp₂) (hndfp : (fp₁.map NamedEntry.name).Nodup)
    (hpsn : sn₁.Perm sn₂) (hndsn : (sn₁.map NamedEntry.name).Nodup)
    (hpgd : gds₁.Perm gds₂) (hndgd : (gds₁.map NamedEntry.name).Nodup)
    (hph : hs₁.Perm hs₂) (hndh : (hs₁.map Host.mac).Nodup)
    (hpif : if₁.Perm if₂) :
    stateEq (mkDHCPState k fp₁ sn₁ hs₁ if₁ gds₁)
      (mkDHCPState k fp₂ sn₂ hs₂ if₂ gds₂) = true := by
  have hfp : pysorted (·.name) fp₁ = pysorted (·.name) fp₂ :=
    pysorted_eq_of_perm _ _ _ hpfp
      (fun a ha b hb hk => List.inj_on_of_nodup_map hndfp ha hb hk)
  have hsn : pysorted (·.name) sn₁ = pysorted (·.name) sn₂ :=
    pysorted_eq_of_perm _ _ _ hpsn
      (fun a ha b hb hk => List.inj_on_of_nodup_map hndsn ha hb hk)
  have hgd : pysorted (·.name) gds₁ = pysorted (·.name) gds₂ :=
    pysorted_eq_of_perm _ _ _ hpgd
      (fun a ha b hb hk => List.inj_on_of_nodup_map hndgd ha hb hk)
  have hif : pysorted id (if₁.map (·.name)) = pysorted id (if₂.map (·.name)) :=
    pysorted_eq_of_perm _ _ _ (hpif.map _) (fun a _ b _ hk => hk)
  have hndh₂ : (hs₂.map Host.mac).Nodup := (hph.map Host.mac).nodup_iff.mp hndh
  have hh : hostsEqDict (dictByMac hs₁) (dictByMac hs₂) = true := by
    rw [dictByMac_of_nodup hs₁ hndh, dictByMac_of_nodup hs₂ hndh₂]
    exact hostsEqDict_of_perm hs₁ hs₂ hph hndh
  unfold stateEq mkDHCPState
  simp only [hfp, hsn, hgd, hif, hh]
  simp

/-- C8 witness: permuted inputs with distinct names and MACs yield equal
canonical states. -/
theorem c8_state_equality_witness :
    stateEq
      (mkDHCPState "k" [NamedEntry.mk "p1" 0, NamedEntry.mk "p2" 1]
        [NamedEntry.mk "net" 0]
        [Host.mk "m1" "i1" [] 0, Host.mk "m2" "i2" [] 0]
        [NamedEntry.mk "eth0" 0, NamedEntry.mk "eth1" 0]
        [NamedEntry.mk "g1" 0])
      (mkDHCPState "k" [NamedEntry.mk "p2" 1, NamedEntry.mk "p1" 0]
        [NamedEntry.mk "net" 0]
        [Host.mk "m2" "i2" [] 0, Host.mk "m1" "i1" [] 0]
        [NamedEntry.mk "eth1" 0, NamedEntry.mk "eth0" 0]
        [NamedEntry.mk "g1" 0]) = true :=
  c8_state_equality "k"
    [NamedEntry.mk "p1" 0, NamedEntry.mk "p2" 1]
    [NamedEntry.mk "p2" 1, NamedEntry.mk "p1" 0]
    [NamedEntry.mk "net" 0] [NamedEntry.mk "net" 0]
    [NamedEntry.mk "g1" 0] [NamedEntry.mk "g1" 0]
    [Host.mk "m1" "i1" [] 0, Host.mk "m2" "i2" [] 0]
    [Host.mk "m2" "i2" [] 0, Host.mk "m1" "i1" [] 0]
    [NamedEntry.mk "eth0" 0, NamedEntry.mk "eth1" 0]
    [NamedEntry.mk "eth1" 0, NamedEntry.mk "eth0" 0]
    (by decide) (by decide) (by decide) (by decide) (by decide) (by decide)
    (by decide) (by decide) (by decide)
